import Mathlib

/-!
Verification of the parse-and-export pipeline of `auto_transcribe.py`.

The Python source is shallowly embedded: strings are Lean `String`
(a structure over `List Char`), Python `dict` (ordered, insertion order
preserved, update-in-place on existing keys) is `List (String × String)`
with `dictInsert`, a Python exception escaping a function is the `error`
case of `Except`, and the file system is a map from path to file content.
All definitions are translated from the source file; definitions whose
name starts with `spec` restate the specification text and are compared
with the source-derived ones in refinement theorems.
-/

set_option autoImplicit false

/-! ## Python string primitives -/

/-- The character class stripped by Python `str.strip()` (ASCII whitespace). -/
def pyIsSpace (c : Char) : Bool :=
  c = ' ' || c = '\t' || c = '\n' || c = '\r' || c = '\x0B' || c = '\x0C'

/-- `str.strip()` on the character list: drop whitespace from both ends. -/
def pyStripCh (s : List Char) : List Char :=
  ((s.dropWhile pyIsSpace).reverse.dropWhile pyIsSpace).reverse

/-- Python `s.strip()`. -/
def pyStrip (s : String) : String :=
  String.mk (pyStripCh s.data)

/-- Split at the first occurrence of `sep` (non-empty in all uses): returns
`some (before, after)` where `s = before ++ sep ++ after` and `before` is the
shortest such prefix, or `none` when `sep` does not occur in `s`. This is the
common core of Python `sep in s`, `s.split(sep)[i]` and `s.split(sep, 1)`. -/
def splitFirstCh (sep : List Char) : List Char → Option (List Char × List Char)
  | [] => none
  | c :: rest =>
    if sep.isPrefixOf (c :: rest) then
      some ([], List.drop sep.length (c :: rest))
    else
      match splitFirstCh sep rest with
      | none => none
      | some (pre, post) => some (c :: pre, post)

/-- `splitFirstCh` on strings. -/
def splitFirstS (sep s : String) : Option (String × String) :=
  (splitFirstCh sep.data s.data).map (fun p => (String.mk p.1, String.mk p.2))

/-- Python `sub in s` (for non-empty `sub`). -/
def pyIn (sub s : String) : Bool :=
  (splitFirstCh sub.data s.data).isSome

/-- Python `s.split(sep)[0]`: the text before the first occurrence of `sep`,
or all of `s` when `sep` does not occur. -/
def pySplitIdx0 (sep s : String) : String :=
  match splitFirstS sep s with
  | none => s
  | some (pre, _) => pre

/-- Python `s.split(sep)[1]`: the segment strictly between the first and the
second occurrence of `sep`, or the whole remainder after the first occurrence
when `sep` occurs exactly once. Every use in the source is guarded by
`sep in s`; outside that guard Python would raise `IndexError`, and this
function is never applied there. -/
def pySplitIdx1 (sep s : String) : String :=
  match splitFirstS sep s with
  | none => ""
  | some (_, rest) =>
    match splitFirstS sep rest with
    | none => rest
    | some (mid, _) => mid

/-- Python splitting on the newline character, on the character list. -/
def splitLinesCh : List Char → List (List Char)
  | [] => [[]]
  | c :: rest =>
    if c = '\n' then [] :: splitLinesCh rest
    else
      match splitLinesCh rest with
      | [] => [[c]]
      | l :: ls => (c :: l) :: ls

/-- Python splitting of a string on the newline character. -/
def splitLinesS (s : String) : List String :=
  (splitLinesCh s.data).map String.mk

/-- Python `s.lower()` (ASCII, which covers the extension set in use). -/
def pyLower (s : String) : String :=
  String.mk (s.data.map Char.toLower)

/-- `pathlib.PurePath.suffix`: the final component extension `name[i:]` where
`i` is the index of the last dot, provided `0 < i < len(name) - 1`, else `""`. -/
def pySuffix (name : String) : String :=
  let rev := name.data.reverse
  let ext := rev.takeWhile (fun c => c ≠ '.')
  match rev.dropWhile (fun c => c ≠ '.') with
  | [] => ""
  | _ :: pre =>
    if pre = [] || ext = [] then ""
    else String.mk ('.' :: ext.reverse)

/-- `pathlib.PurePath.stem`: the name with `pySuffix` removed. -/
def pyStem (name : String) : String :=
  let suf := pySuffix name
  if suf = "" then name
  else String.mk (name.data.take (name.data.length - suf.data.length))

/-! ## Data model (`_parse_response`, lines 101-145) -/

/-- The `file_info` dictionary built at lines 105-109. -/
structure FileInfo where
  filename : String
  file_size : String
  processed_at : String
deriving DecidableEq, Repr

/-- The record returned by `_parse_response`: a Python dict with the four
keys `file_info`, `metadata`, `transcript`, `raw_response`. `metadata` is an
insertion-ordered string-to-string dict. -/
structure TranscriptRecord where
  file_info : FileInfo
  metadata : List (String × String)
  transcript : String
  raw_response : String
deriving DecidableEq, Repr

/-- Replace the entry `p` by `(k, v)` when its key is `k`. -/
def updEntry (k v : String) (p : String × String) : String × String :=
  if p.1 = k then (k, v) else p

/-- Python dict assignment `d[k] = v`: replace the value in place when the
key is present, append the pair otherwise. -/
def dictInsert (d : List (String × String)) (k v : String) : List (String × String) :=
  if d.any (fun p => p.1 == k) then
    d.map (updEntry k v)
  else
    d ++ [(k, v)]

/-- Python dict lookup `d.get(k)`. -/
def dlookup (k : String) : List (String × String) → Option String
  | [] => none
  | (k₁, v) :: rest => if k₁ = k then some v else dlookup k rest

/-- Fold a pair list into a dict starting from `d`. -/
def dictOfFrom (d : List (String × String)) (ps : List (String × String)) :
    List (String × String) :=
  ps.foldl (fun acc p => dictInsert acc p.1 p.2) d

/-- Fold a pair list into a dict. -/
def dictOf (ps : List (String × String)) : List (String × String) :=
  dictOfFrom [] ps

/-- The literal section marker `[METADATA]`. -/
def mdMarker : String := "[METADATA]"

/-- The literal section marker `[TRANSCRIPT]`. -/
def trMarker : String := "[TRANSCRIPT]"

/-- Lines 117-121: iterate over the lines of the (already stripped) metadata
section; a line containing a colon is split on the first colon, both halves
are stripped and stored; other lines are skipped. -/
def parseMetadataBlock (metadata_section : String) : List (String × String) :=
  (splitLinesS metadata_section).foldl
    (fun metadata line =>
      if pyIn ":" line then
        let kv := (splitFirstS ":" line).getD ("", "")
        dictInsert metadata (pyStrip kv.1) (pyStrip kv.2)
      else metadata)
    []

/-- Lines 113-128, the structured branch: `metadata_section` is
the stripped index-0 part of the transcript-marker split of the index-1 part
of the metadata-marker split, and `transcript_section` is the stripped
index-1 part of the transcript-marker split of the whole text. -/
def structuredRecord (file_info : FileInfo) (response_text : String) : TranscriptRecord :=
  { file_info := file_info
    metadata := parseMetadataBlock (pyStrip (pySplitIdx0 trMarker (pySplitIdx1 mdMarker response_text)))
    transcript := pyStrip (pySplitIdx1 trMarker response_text)
    raw_response := response_text }

/-- Lines 130-136, the fallback branch for non-structured responses. -/
def noteRecord (file_info : FileInfo) (response_text : String) : TranscriptRecord :=
  { file_info := file_info
    metadata := [("Note", "Auto-generated transcript")]
    transcript := response_text
    raw_response := response_text }

/-- The body of the `try` block of `_parse_response` after `file_info` is
bound (lines 112-136). Every operation here (`in`, `split`, `strip`, dict
assignment) is total in Python, so this part of the body cannot raise. -/
def parse_try (file_info : FileInfo) (response_text : String) : TranscriptRecord :=
  if pyIn mdMarker response_text && pyIn trMarker response_text then
    structuredRecord file_info response_text
  else
    noteRecord file_info response_text

/-- The `except` handler, lines 138-145. Its `return` expression reads the
local variable `file_info`; when the exception that reached the handler was
raised by the file-info extraction itself (lines 105-109, the only fallible
statements of the `try` block), `file_info` was never bound and evaluating
the handler raises `UnboundLocalError` instead of returning. -/
def parse_except_handler (fileInfoResult : Except Unit FileInfo) (response_text : String) :
    Except String TranscriptRecord :=
  match fileInfoResult with
  | .error _ => .error "UnboundLocalError: file_info"
  | .ok file_info =>
    .ok { file_info := file_info
          metadata := [("Error", "Failed to parse structure")]
          transcript := response_text
          raw_response := response_text }

/-- `_parse_response` (lines 101-145). The file-info extraction at lines
105-109 performs I/O (`os.path.getsize`) that can raise `OSError`; it is
modelled by the `fileInfoResult` argument. When it raises, control moves to
the `except` handler with `file_info` unbound; when it succeeds, the rest of
the `try` block is total, so the function returns the record of `parse_try`. -/
def parse_response (fileInfoResult : Except Unit FileInfo) (response_text : String) :
    Except String TranscriptRecord :=
  match fileInfoResult with
  | .error e => parse_except_handler (.error e) response_text
  | .ok file_info => .ok (parse_try file_info response_text)

/-! ## Export (`ExportManager.to_notion_markdown`, lines 150-183) -/

/-- The file system: a map from path to file content. -/
def FS : Type := String → Option String

/-- Opening a path for writing and writing content: overwrite the file at `path`. -/
def fsWrite (fs : FS) (path content : String) : FS :=
  fun p => if p = path then some content else fs p

/-- The Markdown text assembled at lines 156-177: header and file-info
section, one bulleted line per metadata entry in dict order, separator,
verbatim transcript, separator and attribution line. -/
def notionContent (transcript_data : TranscriptRecord) : String :=
  "# Audio Transcript: " ++ transcript_data.file_info.filename
    ++ "\n\n## Metadata\n- **File**: " ++ transcript_data.file_info.filename
    ++ "\n- **Size**: " ++ transcript_data.file_info.file_size
    ++ "\n- **Processed**: " ++ transcript_data.file_info.processed_at ++ "\n"
    ++ String.join (transcript_data.metadata.map (fun p => "- **" ++ p.1 ++ "**: " ++ p.2 ++ "\n"))
    ++ "\n---\n\n## Transcript\n\n" ++ transcript_data.transcript
    ++ "\n\n---\n*Automatically generated using Gemini 2.5 Flash Transcription*\n"

/-- `ExportManager.to_notion_markdown` (lines 150-183): choose the output
path (the supplied one, or a timestamp-derived default), write the rendered
content there, return the path written together with the updated file
system. `nowStamp` models `datetime.datetime.now().strftime(...)`. -/
def to_notion_markdown (transcript_data : TranscriptRecord) (output_path : Option String)
    (nowStamp : String) (fs : FS) : String × FS :=
  let path :=
    match output_path with
    | none => "transcript_" ++ nowStamp ++ ".md"
    | some p => p
  (path, fsWrite fs path (notionContent transcript_data))

/-! ## Batch processing (`batch_transcribe_directory`, lines 262-289) -/

/-- One entry of `Path(input_directory).iterdir()`: a name and whether the
entry is a subdirectory. -/
structure DirEntry where
  name : String
  isDir : Bool
deriving DecidableEq, Repr

/-- Line 269: the recognized audio extension set. -/
def audio_extensions : List String :=
  [".mp3", ".wav", ".m4a", ".flac", ".aac", ".ogg"]

/-- Line 272: `file_path.suffix.lower() in audio_extensions`. The test looks
only at the entry name; `iterdir` yields subdirectories as well and no
`is_file` check is made. -/
def batchSelects (e : DirEntry) : Bool :=
  audio_extensions.contains (pyLower (pySuffix e.name))

/-- The body of the loop at lines 271-289 for one directory entry.
`collab` models `transcriber.transcribe_audio`, which catches its own
exceptions and returns `None` on any failure; `writeFails` models whether
the file open inside the export raises at a given path. An exception
from the export is caught by the `except` at line 288, leaving the file
system unchanged for this entry; iteration always continues. -/
def batchStep (collab : String → Option TranscriptRecord) (writeFails : String → Bool)
    (input_directory output_directory : String) (fs : FS) (e : DirEntry) : FS :=
  if batchSelects e then
    match collab (input_directory ++ "/" ++ e.name) with
    | none => fs
    | some result =>
      if writeFails (output_directory ++ "/" ++ pyStem e.name ++ "_transcript.md") then fs
      else fsWrite fs (output_directory ++ "/" ++ pyStem e.name ++ "_transcript.md")
        (notionContent result)
  else fs

/-- `batch_transcribe_directory` (lines 262-289): fold the per-entry step
over the directory listing. -/
def batch_transcribe_directory (collab : String → Option TranscriptRecord)
    (writeFails : String → Bool) (input_directory output_directory : String)
    (entries : List DirEntry) (fs : FS) : FS :=
  entries.foldl (batchStep collab writeFails input_directory output_directory) fs

/-! ## Specification-side definitions (restating spec.md, for refinement) -/

/-- Restates spec section 4.1 step 3: the key/value pairs of the metadata
block in line order — each line containing a colon split on the first colon,
both sides trimmed; lines without a colon dropped. -/
def specMetadataPairs (block : String) : List (String × String) :=
  (splitLinesS block).filterMap (fun line =>
    match splitFirstS ":" line with
    | none => none
    | some (k, v) => some (pyStrip k, pyStrip v))

/-- The value of the last pair with key `k`, if any. -/
def lastVal (k : String) : List (String × String) → Option String
  | [] => none
  | (k₁, v) :: rest =>
    match lastVal k rest with
    | some w => some w
    | none => if k₁ = k then some v else none

/-- The keys of a list in order of first occurrence, without repetition. -/
def firstOccs : List String → List String
  | [] => []
  | k :: rest => k :: (firstOccs rest).filter (fun x => x ≠ k)

/-! ## General lemmas about the string primitives -/

theorem String.eq_of_data_eq {s t : String} (h : s.data = t.data) : s = t :=
  congrArg String.mk h

theorem String.data_append_eq (a b : String) : (a ++ b).data = a.data ++ b.data := by
  cases a; cases b; rfl

theorem splitFirstCh_eq_append {sep : List Char} : ∀ {s pre post : List Char},
    splitFirstCh sep s = some (pre, post) → s = pre ++ sep ++ post := by
  intro s
  induction s with
  | nil => intro pre post h; simp [splitFirstCh] at h
  | cons c rest ih =>
    intro pre post h
    by_cases hp : sep.isPrefixOf (c :: rest)
    · rw [splitFirstCh, if_pos hp] at h
      obtain ⟨h1, h2⟩ := Prod.mk.injEq .. ▸ (Option.some.injEq .. ▸ h)
      subst h1
      have hpre : sep <+: (c :: rest) := List.isPrefixOf_iff_prefix.mp hp
      have := List.prefix_iff_eq_append.mp hpre
      rw [← h2]
      simpa using this.symm
    · rw [splitFirstCh, if_neg hp] at h
      cases hr : splitFirstCh sep rest with
      | none => rw [hr] at h; exact absurd h (by simp)
      | some pq =>
        obtain ⟨p1, q1⟩ := pq
        rw [hr] at h
        simp only [Option.some.injEq, Prod.mk.injEq] at h
        obtain ⟨h1, h2⟩ := h
        subst h2
        rw [← h1]
        have := ih hr
        simp [this]

theorem splitFirstCh_min {sep : List Char} : ∀ {s pre post : List Char},
    splitFirstCh sep s = some (pre, post) →
    ∀ p q : List Char, s = p ++ sep ++ q → pre.length ≤ p.length := by
  intro s
  induction s with
  | nil => intro pre post h; simp [splitFirstCh] at h
  | cons c rest ih =>
    intro pre post h p q hs
    by_cases hp : sep.isPrefixOf (c :: rest)
    · rw [splitFirstCh, if_pos hp] at h
      simp only [Option.some.injEq, Prod.mk.injEq] at h
      rw [← h.1]
      simp
    · rw [splitFirstCh, if_neg hp] at h
      cases hr : splitFirstCh sep rest with
      | none => rw [hr] at h; exact absurd h (by simp)
      | some pq =>
        obtain ⟨p1, q1⟩ := pq
        rw [hr] at h
        simp only [Option.some.injEq, Prod.mk.injEq] at h
        cases p with
        | nil =>
          exfalso
          apply hp
          apply List.isPrefixOf_iff_prefix.mpr
          exact ⟨q, by simpa using hs.symm⟩
        | cons c₁ p₁ =>
          simp only [List.cons_append, List.cons.injEq] at hs
          have := ih hr p₁ q hs.2
          rw [← h.1]
          simpa using this

theorem splitFirstCh_none {sep : List Char} (hsep : sep ≠ []) : ∀ {s : List Char},
    splitFirstCh sep s = none → ∀ p q : List Char, s ≠ p ++ sep ++ q := by
  intro s
  induction s with
  | nil =>
    intro _ p q heq
    rcases List.append_eq_nil.mp (List.append_eq_nil.mp heq.symm).1 with ⟨-, h2⟩
    exact hsep h2
  | cons c rest ih =>
    intro h p q heq
    by_cases hp : sep.isPrefixOf (c :: rest)
    · rw [splitFirstCh, if_pos hp] at h; exact absurd h (by simp)
    · rw [splitFirstCh, if_neg hp] at h
      cases hr : splitFirstCh sep rest with
      | some pq => rw [hr] at h; exact absurd h (by simp)
      | none =>
        cases p with
        | nil =>
          apply hp
          apply List.isPrefixOf_iff_prefix.mpr
          exact ⟨q, by simpa using heq.symm⟩
        | cons c₁ p₁ =>
          simp only [List.cons_append, List.cons.injEq] at heq
          exact ih hr p₁ q heq.2

theorem splitFirstCh_isSome {sep s : List Char} (hsep : sep ≠ [])
    (p q : List Char) (h : s = p ++ sep ++ q) : (splitFirstCh sep s).isSome := by
  cases hr : splitFirstCh sep s with
  | none => exact absurd h (splitFirstCh_none hsep hr p q)
  | some _ => rfl

/-- `sub in s` holds exactly when `s` decomposes around `sub` (non-empty `sub`). -/
theorem pyIn_iff {sub s : String} (hsub : sub.data ≠ []) :
    pyIn sub s = true ↔ ∃ p q : String, s = p ++ sub ++ q := by
  constructor
  · intro h
    rw [pyIn, Option.isSome_iff_exists] at h
    obtain ⟨⟨pre, post⟩, hpq⟩ := h
    refine ⟨String.mk pre, String.mk post, ?_⟩
    apply String.eq_of_data_eq
    rw [String.data_append_eq, String.data_append_eq]
    exact splitFirstCh_eq_append hpq
  · rintro ⟨p, q, rfl⟩
    apply splitFirstCh_isSome hsub p.data q.data
    rw [String.data_append_eq, String.data_append_eq]

/-! ## General lemmas about the dict model -/

/-- The keys of a dict, in iteration order. -/
def dkeys (d : List (String × String)) : List String := d.map Prod.fst

theorem mem_dkeys_iff_any {d : List (String × String)} {k : String} :
    d.any (fun p => p.1 == k) = true ↔ k ∈ dkeys d := by
  simp [dkeys, List.any_eq_true]

theorem dictInsert_ne_nil (d : List (String × String)) (k v : String) :
    dictInsert d k v ≠ [] := by
  unfold dictInsert
  by_cases h : d.any (fun p => p.1 == k)
  · rw [if_pos h]
    intro hc
    rw [List.map_eq_nil_iff] at hc
    subst hc
    simp at h
  · rw [if_neg h]
    simp

theorem updEntry_mk_eq (k v k₂ v₂ : String) (h : k₂ = k) : updEntry k v (k₂, v₂) = (k, v) := by
  simp [updEntry, h]

theorem updEntry_mk_ne (k v k₂ v₂ : String) (h : k₂ ≠ k) : updEntry k v (k₂, v₂) = (k₂, v₂) := by
  simp [updEntry, h]

theorem dkeys_dictInsert (d : List (String × String)) (k v : String) :
    dkeys (dictInsert d k v) = if k ∈ dkeys d then dkeys d else dkeys d ++ [k] := by
  unfold dictInsert
  by_cases h : k ∈ dkeys d
  · rw [if_pos h, if_pos (mem_dkeys_iff_any.mpr h)]
    unfold dkeys
    rw [List.map_map]
    apply List.map_congr_left
    intro p _
    obtain ⟨a, b⟩ := p
    by_cases hk : a = k
    · simp only [Function.comp_apply, updEntry_mk_eq k v a b hk]
      exact hk.symm
    · simp only [Function.comp_apply, updEntry_mk_ne k v a b hk]
  · rw [if_neg h, if_neg (fun hc => h (mem_dkeys_iff_any.mp hc))]
    simp [dkeys]

theorem dlookup_eq_none_of_not_mem {d : List (String × String)} {k : String}
    (h : k ∉ dkeys d) : dlookup k d = none := by
  induction d with
  | nil => rfl
  | cons p rest ih =>
    obtain ⟨k₁, v₁⟩ := p
    simp only [dkeys, List.map_cons, List.mem_cons, not_or] at h
    rw [dlookup, if_neg (fun hc => h.1 hc.symm)]
    exact ih (by simpa [dkeys] using h.2)

theorem dlookup_append (d l : List (String × String)) (k : String) :
    dlookup k (d ++ l) =
      match dlookup k d with
      | some w => some w
      | none => dlookup k l := by
  induction d with
  | nil => rfl
  | cons p rest ih =>
    obtain ⟨k₁, v₁⟩ := p
    by_cases hk : k₁ = k
    · simp [dlookup, hk]
    · simp only [List.cons_append, dlookup, if_neg hk]
      exact ih

theorem dlookup_map_update_ne {k k₁ v : String} (hne : k₁ ≠ k) :
    ∀ d : List (String × String),
      dlookup k (d.map (updEntry k₁ v)) = dlookup k d := by
  intro d
  induction d with
  | nil => rfl
  | cons p rest ih =>
    obtain ⟨k₂, v₂⟩ := p
    by_cases h2 : k₂ = k₁
    · rw [List.map_cons, updEntry_mk_eq k₁ v k₂ v₂ h2]
      simp only [dlookup, if_neg hne, if_neg (fun hc => hne (h2.symm.trans hc))]
      exact ih
    · rw [List.map_cons, updEntry_mk_ne k₁ v k₂ v₂ h2]
      by_cases h3 : k₂ = k
      · simp only [dlookup, if_pos h3]
      · simp only [dlookup, if_neg h3]
        exact ih

theorem dlookup_map_update_self {k₁ v : String} : ∀ d : List (String × String),
    k₁ ∈ dkeys d →
    dlookup k₁ (d.map (updEntry k₁ v)) = some v := by
  intro d
  induction d with
  | nil => intro h; simp [dkeys] at h
  | cons p rest ih =>
    intro h
    obtain ⟨k₂, v₂⟩ := p
    by_cases h2 : k₂ = k₁
    · rw [List.map_cons, updEntry_mk_eq k₁ v k₂ v₂ h2]
      simp [dlookup]
    · have hmem : k₁ ∈ dkeys rest := by
        simp only [dkeys, List.map_cons, List.mem_cons] at h
        rcases h with h | h
        · exact absurd h.symm h2
        · simpa [dkeys] using h
      rw [List.map_cons, updEntry_mk_ne k₁ v k₂ v₂ h2]
      simp only [dlookup, if_neg h2]
      exact ih hmem

theorem dlookup_dictInsert (d : List (String × String)) (k k₁ v : String) :
    dlookup k (dictInsert d k₁ v) = if k₁ = k then some v else dlookup k d := by
  unfold dictInsert
  by_cases hany : d.any (fun p => p.1 == k₁)
  · rw [if_pos hany]
    by_cases hk : k₁ = k
    · subst hk
      rw [if_pos rfl]
      exact dlookup_map_update_self d (mem_dkeys_iff_any.mp hany)
    · rw [if_neg hk]
      exact dlookup_map_update_ne hk d
  · rw [if_neg hany, dlookup_append]
    by_cases hk : k₁ = k
    · subst hk
      have hnm : k₁ ∉ dkeys d := fun hc => hany (mem_dkeys_iff_any.mpr hc)
      rw [dlookup_eq_none_of_not_mem hnm]
      simp [dlookup]
    · rw [if_neg hk]
      cases hd : dlookup k d with
      | some w => rfl
      | none => simp [dlookup, hk]

/-! ## Lemmas about folding pair lists into dicts -/

theorem splitFirstS_none_iff {sep s : String} :
    splitFirstS sep s = none ↔ splitFirstCh sep.data s.data = none := by
  unfold splitFirstS
  cases h : splitFirstCh sep.data s.data <;> simp

theorem pyIn_eq_isSome (sep s : String) : pyIn sep s = (splitFirstS sep s).isSome := by
  unfold pyIn splitFirstS
  cases h : splitFirstCh sep.data s.data <;> simp

theorem dlookup_dictOfFrom (k : String) : ∀ (ps d : List (String × String)),
    dlookup k (dictOfFrom d ps) =
      match lastVal k ps with
      | some w => some w
      | none => dlookup k d := by
  intro ps
  induction ps with
  | nil => intro d; rfl
  | cons p rest ih =>
    intro d
    obtain ⟨k₁, v₁⟩ := p
    rw [show dictOfFrom d ((k₁, v₁) :: rest) = dictOfFrom (dictInsert d k₁ v₁) rest from rfl]
    rw [ih, dlookup_dictInsert]
    cases hl : lastVal k rest with
    | some w => simp [lastVal, hl]
    | none =>
      simp only [lastVal, hl]
      by_cases hk : k₁ = k
      · simp [hk]
      · simp [hk]

theorem firstOccs_nodup : ∀ l : List String, (firstOccs l).Nodup := by
  intro l
  induction l with
  | nil => simp [firstOccs]
  | cons k rest ih =>
    simp only [firstOccs]
    refine List.nodup_cons.mpr ⟨?_, List.Nodup.filter _ ih⟩
    intro hc
    rw [List.mem_filter] at hc
    simp at hc

theorem dkeys_dictOfFrom : ∀ (ps d : List (String × String)),
    dkeys (dictOfFrom d ps) =
      dkeys d ++ (firstOccs (ps.map Prod.fst)).filter (fun x => decide (x ∉ dkeys d)) := by
  intro ps
  induction ps with
  | nil => intro d; simp [dictOfFrom, firstOccs]
  | cons p rest ih =>
    intro d
    obtain ⟨k, v⟩ := p
    rw [show dictOfFrom d ((k, v) :: rest) = dictOfFrom (dictInsert d k v) rest from rfl]
    rw [ih, dkeys_dictInsert]
    by_cases hk : k ∈ dkeys d
    · rw [if_pos hk, List.map_cons]
      simp only [firstOccs]
      rw [List.filter_cons_of_neg (by simpa using hk)]
      rw [List.filter_filter]
      congr 1
      apply List.filter_congr
      intro a _
      by_cases ha : a ∈ dkeys d
      · simp [ha]
      · have hak : a ≠ k := fun hc => ha (hc ▸ hk)
        simp [ha, hak]
    · rw [if_neg hk, List.map_cons]
      simp only [firstOccs]
      rw [List.filter_cons_of_pos (by simpa using hk)]
      rw [List.filter_filter, List.append_assoc, List.singleton_append]
      congr 2
      apply List.filter_congr
      intro a _
      by_cases ha : a ∈ dkeys d
      · simp [ha]
      · by_cases hak : a = k
        · simp [ha, hak]
        · simp [ha, hak]

theorem dictOfFrom_ne_nil : ∀ (ps d : List (String × String)), d ≠ [] → dictOfFrom d ps ≠ [] := by
  intro ps
  induction ps with
  | nil => intro d h; exact h
  | cons p rest ih =>
    intro d _
    obtain ⟨k, v⟩ := p
    rw [show dictOfFrom d ((k, v) :: rest) = dictOfFrom (dictInsert d k v) rest from rfl]
    exact ih _ (dictInsert_ne_nil d k v)

theorem dictOf_eq_nil_iff (ps : List (String × String)) : dictOf ps = [] ↔ ps = [] := by
  constructor
  · intro h
    cases ps with
    | nil => rfl
    | cons p rest =>
      obtain ⟨k, v⟩ := p
      exfalso
      apply dictOfFrom_ne_nil rest (dictInsert [] k v) (dictInsert_ne_nil [] k v)
      exact h
  · rintro rfl; rfl

theorem foldl_metadata_lines (lines : List String) : ∀ d : List (String × String),
    lines.foldl (fun metadata line =>
      if pyIn ":" line then
        let kv := (splitFirstS ":" line).getD ("", "")
        dictInsert metadata (pyStrip kv.1) (pyStrip kv.2)
      else metadata) d
    = dictOfFrom d (lines.filterMap (fun line =>
        match splitFirstS ":" line with
        | none => none
        | some (k, v) => some (pyStrip k, pyStrip v))) := by
  induction lines with
  | nil => intro d; rfl
  | cons line rest ih =>
    intro d
    rw [List.foldl_cons, List.filterMap_cons]
    cases hs : splitFirstS ":" line with
    | none =>
      have hin : pyIn ":" line = false := by
        rw [pyIn_eq_isSome, hs]
        rfl
      rw [if_neg (by simp [hin])]
      exact ih d
    | some kv =>
      obtain ⟨k, v⟩ := kv
      have hin : pyIn ":" line = true := by
        rw [pyIn_eq_isSome, hs]
        rfl
      rw [if_pos (by simp [hin])]
      exact ih (dictInsert d (pyStrip k) (pyStrip v))

/-- The line loop of the source computes exactly the dict fold of the
pair list of the specification. -/
theorem parseMetadataBlock_eq_dictOf (block : String) :
    parseMetadataBlock block = dictOf (specMetadataPairs block) := by
  unfold parseMetadataBlock specMetadataPairs dictOf
  exact foldl_metadata_lines (splitLinesS block) []

/-! ## Lemmas about the batch loop -/

theorem fsWrite_ne_at (fs : FS) (p c path : String) (h : fsWrite fs p c path ≠ fs path) :
    path = p := by
  by_contra hq
  exact h (if_neg hq)

theorem batchStep_not_selected (collab : String → Option TranscriptRecord)
    (writeFails : String → Bool) (inDir outDir : String) (fs : FS) (e : DirEntry)
    (h : batchSelects e = false) :
    batchStep collab writeFails inDir outDir fs e = fs := by
  unfold batchStep
  rw [if_neg (by simp [h])]

theorem batch_filter_selected (collab : String → Option TranscriptRecord)
    (writeFails : String → Bool) (inDir outDir : String) :
    ∀ (entries : List DirEntry) (fs : FS),
      batch_transcribe_directory collab writeFails inDir outDir entries fs =
        batch_transcribe_directory collab writeFails inDir outDir
          (entries.filter batchSelects) fs := by
  intro entries
  induction entries with
  | nil => intro fs; rfl
  | cons e rest ih =>
    intro fs
    by_cases he : batchSelects e
    · rw [List.filter_cons_of_pos he]
      unfold batch_transcribe_directory at ih ⊢
      rw [List.foldl_cons, List.foldl_cons]
      exact ih _
    · rw [List.filter_cons_of_neg (by simpa using he)]
      unfold batch_transcribe_directory at ih ⊢
      rw [List.foldl_cons]
      rw [batchStep_not_selected collab writeFails inDir outDir fs e (by simpa using he)]
      exact ih fs

theorem batch_fs_change (collab : String → Option TranscriptRecord)
    (writeFails : String → Bool) (inDir outDir : String) :
    ∀ (entries : List DirEntry) (fs : FS) (path : String),
      batch_transcribe_directory collab writeFails inDir outDir entries fs path ≠ fs path →
      ∃ e, e ∈ entries ∧ batchSelects e = true ∧
        (collab (inDir ++ "/" ++ e.name)).isSome = true ∧
        path = outDir ++ "/" ++ pyStem e.name ++ "_transcript.md" ∧
        writeFails path = false := by
  intro entries
  induction entries with
  | nil => intro fs path h; exact absurd rfl h
  | cons e rest ih =>
    intro fs path h
    unfold batch_transcribe_directory at h
    rw [List.foldl_cons] at h
    by_cases h1 : (batchStep collab writeFails inDir outDir fs e) path = fs path
    · have h2 : batch_transcribe_directory collab writeFails inDir outDir rest
          (batchStep collab writeFails inDir outDir fs e) path ≠
          (batchStep collab writeFails inDir outDir fs e) path := by
        rw [h1]
        exact h
      obtain ⟨e₂, hmem, hrest⟩ := ih (batchStep collab writeFails inDir outDir fs e) path h2
      exact ⟨e₂, List.mem_cons_of_mem _ hmem, hrest⟩
    · unfold batchStep at h1
      by_cases hsel : batchSelects e
      · rw [if_pos hsel] at h1
        cases hc : collab (inDir ++ "/" ++ e.name) with
        | none => rw [hc] at h1; exact absurd rfl h1
        | some r =>
          rw [hc] at h1
          by_cases hw : writeFails (outDir ++ "/" ++ pyStem e.name ++ "_transcript.md")
          · simp [hw] at h1
          · simp only [hw, if_false, Bool.false_eq_true] at h1
            have hp : path = outDir ++ "/" ++ pyStem e.name ++ "_transcript.md" :=
              fsWrite_ne_at fs _ _ path h1
            refine ⟨e, List.mem_cons_self _ _, hsel, by rw [hc]; rfl, hp, ?_⟩
            rw [hp]
            simpa using hw
      · rw [if_neg (by simpa using hsel)] at h1
        exact absurd rfl h1

/-- The inputs handed to `transcriber.transcribe_audio` during a batch run
(lines 271-278): one call per directory entry passing the extension test. -/
def batch_processed_inputs (input_directory : String) (entries : List DirEntry) :
    List String :=
  (entries.filter batchSelects).map (fun e => input_directory ++ "/" ++ e.name)

/-! ## Branch lemmas for the parser -/

theorem parse_try_structured {fi : FileInfo} {text : String}
    (hm : pyIn mdMarker text = true) (ht : pyIn trMarker text = true) :
    parse_try fi text = structuredRecord fi text := by
  unfold parse_try
  rw [if_pos (by simp [hm, ht])]

theorem parse_try_fallback {fi : FileInfo} {text : String}
    (h : (pyIn mdMarker text && pyIn trMarker text) = false) :
    parse_try fi text = noteRecord fi text := by
  unfold parse_try
  rw [if_neg (by simp [h])]

theorem parse_response_ok (fi : FileInfo) (text : String) :
    parse_response (Except.ok fi) text = Except.ok (parse_try fi text) := rfl

/-! ## Concrete inputs used in the claims -/

/-- A fixed file-info value (the claims are uniform in it). -/
def fi0 : FileInfo :=
  { filename := "meeting.mp3", file_size := "1.00 MB", processed_at := "2024-01-01T00:00:00" }

/-- The reversed-marker example of the specification. -/
def revTxt : String := "[TRANSCRIPT]\nfoo\n[METADATA]\nbar: baz"

/-- A structured input whose metadata block has no colon-bearing line. -/
def noColonTxt : String := "[METADATA]\nno colon here\n[TRANSCRIPT]\nhi"

/-- The structured round-trip example of the specification. -/
def roundTripTxt : String :=
  "[METADATA]\nTotal Speakers: 2\nAudio Quality: good\n[TRANSCRIPT]\nHello world"

/-- An input in which `[TRANSCRIPT]` occurs twice. -/
def dupTxt : String := "[METADATA]\na: b\n[TRANSCRIPT]\nfoo\n[TRANSCRIPT]\nbar"

/-! ## Claims -/

/-- Claim C1, counterexample: on the reversed-marker input the code does a
structured split — metadata is the parsed pair, not the sentinel, and the
transcript is not the whole input — refuting the claimed fallback. -/
theorem claim_C1_counterexample :
    parse_response (Except.ok fi0) revTxt =
      Except.ok { file_info := fi0, metadata := [("bar", "baz")],
                  transcript := "foo\n[METADATA]\nbar: baz", raw_response := revTxt } ∧
    [(("bar" : String), ("baz" : String))] ≠ [("Note", "Auto-generated transcript")] ∧
    ("foo\n[METADATA]\nbar: baz" : String) ≠ revTxt := by
  refine ⟨rfl, by decide, by decide⟩

/-- Claim C1, amended: whenever both markers occur in the text — in either
order — the parser takes the structured path, computing metadata and
transcript from the marker split; the fallback is taken only when a marker
is absent. -/
theorem claim_C1_amended (fi : FileInfo) (text : String)
    (hm : pyIn mdMarker text = true) (ht : pyIn trMarker text = true) :
    parse_response (Except.ok fi) text = Except.ok (structuredRecord fi text) ∧
    (structuredRecord fi text).transcript = pyStrip (pySplitIdx1 trMarker text) ∧
    (structuredRecord fi text).metadata =
      parseMetadataBlock (pyStrip (pySplitIdx0 trMarker (pySplitIdx1 mdMarker text))) := by
  refine ⟨?_, rfl, rfl⟩
  rw [parse_response_ok, parse_try_structured hm ht]

/-- Claim C1, witness: the amended statement applied to the reversed-marker
example input. -/
theorem claim_C1_witness :
    pyIn mdMarker revTxt = true ∧ pyIn trMarker revTxt = true ∧
    parse_response (Except.ok fi0) revTxt = Except.ok (structuredRecord fi0 revTxt) :=
  ⟨by decide, by decide, (claim_C1_amended fi0 revTxt (by decide) (by decide)).1⟩

/-- Claim C2, counterexample: a structured input whose metadata block has no
colon-bearing line yields an empty metadata mapping, refuting the claim that
metadata is never empty. -/
theorem claim_C2_counterexample :
    parse_response (Except.ok fi0) noColonTxt =
      Except.ok { file_info := fi0, metadata := [], transcript := "hi",
                  raw_response := noColonTxt } := rfl

/-- Claim C2, amended: metadata is empty exactly when the structured path is
taken and the metadata block contains no colon-bearing line; on the fallback
path it is the non-empty sentinel, and on the structured path it is the
parsed pair list, which may be empty. -/
theorem claim_C2_amended (fi : FileInfo) (text : String) :
    ((parse_try fi text).metadata = [] ↔
      (pyIn mdMarker text && pyIn trMarker text) = true ∧
        specMetadataPairs (pyStrip (pySplitIdx0 trMarker (pySplitIdx1 mdMarker text))) = []) := by
  cases hb : (pyIn mdMarker text && pyIn trMarker text) with
  | false =>
    rw [parse_try_fallback hb]
    simp [noteRecord]
  | true =>
    have hm : pyIn mdMarker text = true := (Bool.and_eq_true ..).mp hb |>.1
    have ht : pyIn trMarker text = true := (Bool.and_eq_true ..).mp hb |>.2
    rw [parse_try_structured hm ht]
    unfold structuredRecord
    rw [parseMetadataBlock_eq_dictOf]
    simp only [dictOf_eq_nil_iff]
    simp

/-- Claim C3: the claim is right and the code is wrong.  When the file-info
extraction at lines 105-109 raises (for example `os.path.getsize` on a path
whose file has disappeared), the `except` handler at lines 138-145 evaluates
the never-bound local `file_info` and itself raises `UnboundLocalError`, so
`_parse_response` does raise to its caller instead of returning the degraded
record. -/
theorem claim_C3_bug :
    parse_response (Except.error ()) "[METADATA]\nTotal Speakers: 2\n[TRANSCRIPT]\nhi" =
      Except.error "UnboundLocalError: file_info" := rfl

/-- Claim C6: the metadata block is parsed line by line into an
insertion-ordered dict of first-colon splits with both sides trimmed and
colon-free lines skipped (the source loop equals the dict fold of the
pair list of the specification), and the documented round-trip example parses as
stated. -/
theorem claim_C6 :
    (∀ block : String, parseMetadataBlock block = dictOf (specMetadataPairs block)) ∧
    parse_response (Except.ok fi0) roundTripTxt =
      Except.ok { file_info := fi0,
                  metadata := [("Total Speakers", "2"), ("Audio Quality", "good")],
                  transcript := "Hello world", raw_response := roundTripTxt } ∧
    parseMetadataBlock "Total Speakers: 2\nno colon here\nAudio Quality: good" =
      [("Total Speakers", "2"), ("Audio Quality", "good")] := by
  refine ⟨parseMetadataBlock_eq_dictOf, rfl, by decide⟩

/-- Claim C7: on the marker-missing fallback the record has the single
sentinel entry keyed `Note`, and the record of the `except` handler (evaluated
with `file_info` bound) has the single sentinel entry keyed `Error`; in both
record shapes the transcript and the raw response are the whole original
input, and the two keys are distinct. -/
theorem claim_C7 :
    (∀ (fi : FileInfo) (text : String),
        (pyIn mdMarker text && pyIn trMarker text) = false →
        parse_response (Except.ok fi) text =
          Except.ok { file_info := fi, metadata := [("Note", "Auto-generated transcript")],
                      transcript := text, raw_response := text }) ∧
    (∀ (fi : FileInfo) (text : String),
        parse_except_handler (Except.ok fi) text =
          Except.ok { file_info := fi, metadata := [("Error", "Failed to parse structure")],
                      transcript := text, raw_response := text }) ∧
    ("Note" : String) ≠ "Error" := by
  refine ⟨?_, fun fi text => rfl, by decide⟩
  intro fi text h
  rw [parse_response_ok, parse_try_fallback h]
  rfl

/-- Claim C7, witness: the fallback clause applied to the marker-free
example input of the specification. -/
theorem claim_C7_witness :
    (pyIn mdMarker "just some text" && pyIn trMarker "just some text") = false ∧
    parse_response (Except.ok fi0) "just some text" =
      Except.ok { file_info := fi0, metadata := [("Note", "Auto-generated transcript")],
                  transcript := "just some text", raw_response := "just some text" } :=
  ⟨by decide, claim_C7.1 fi0 "just some text" (by decide)⟩

/-- Claim C9: rendering a record twice to the same explicit path writes the
same bytes both times (the second write leaves the file system unchanged)
and both calls return exactly the supplied path. -/
theorem claim_C9 (r : TranscriptRecord) (p ts₁ ts₂ : String) (fs : FS) :
    (to_notion_markdown r (some p) ts₁ fs).1 = p ∧
    (to_notion_markdown r (some p) ts₂ (to_notion_markdown r (some p) ts₁ fs).2).1 = p ∧
    (to_notion_markdown r (some p) ts₁ fs).2 p = some (notionContent r) ∧
    (to_notion_markdown r (some p) ts₂ (to_notion_markdown r (some p) ts₁ fs).2).2 p =
      some (notionContent r) ∧
    (to_notion_markdown r (some p) ts₂ (to_notion_markdown r (some p) ts₁ fs).2).2 =
      (to_notion_markdown r (some p) ts₁ fs).2 := by
  refine ⟨rfl, rfl, by simp [to_notion_markdown, fsWrite], by simp [to_notion_markdown, fsWrite], ?_⟩
  funext q
  by_cases hq : q = p
  · simp [to_notion_markdown, fsWrite, hq]
  · simp [to_notion_markdown, fsWrite, hq]

/-- Claim C10: with duplicate keys in the metadata block, the resulting dict
has pairwise-distinct keys, each key maps to the value of its last
colon-bearing line, and the key order is the order of first occurrence; the
concrete duplicate example confirms the last-wins and first-position rule. -/
theorem claim_C10 :
    (∀ block : String,
        (dkeys (parseMetadataBlock block)).Nodup ∧
        (∀ k : String, dlookup k (parseMetadataBlock block) =
          lastVal k (specMetadataPairs block)) ∧
        dkeys (parseMetadataBlock block) =
          firstOccs ((specMetadataPairs block).map Prod.fst)) ∧
    parseMetadataBlock "a: 1\nb: 2\na: 3" = [("a", "3"), ("b", "2")] := by
  refine ⟨?_, by decide⟩
  intro block
  have hkeys : dkeys (parseMetadataBlock block) =
      firstOccs ((specMetadataPairs block).map Prod.fst) := by
    rw [parseMetadataBlock_eq_dictOf]
    unfold dictOf
    rw [dkeys_dictOfFrom]
    simp [dkeys]
  refine ⟨?_, ?_, hkeys⟩
  · rw [hkeys]
    exact firstOccs_nodup _
  · intro k
    rw [parseMetadataBlock_eq_dictOf]
    unfold dictOf
    rw [dlookup_dictOfFrom]
    cases lastVal k (specMetadataPairs block) with
    | some w => rfl
    | none => rfl

/-! ## Evaluation lemmas for the marker split -/

theorem splitFirstS_eq_some (sep s : String) {a b : List Char}
    (h : splitFirstCh sep.data s.data = some (a, b)) :
    splitFirstS sep s = some (String.mk a, String.mk b) := by
  unfold splitFirstS
  rw [h]
  rfl

theorem splitFirstS_none_of (sep s : String)
    (h : splitFirstCh sep.data s.data = none) :
    splitFirstS sep s = none := by
  unfold splitFirstS
  rw [h]
  rfl

theorem pySplitIdx1_eq_of_first (sep s : String) {pre rest : String}
    (h1 : splitFirstS sep s = some (pre, rest)) :
    pySplitIdx1 sep s =
      match splitFirstS sep rest with
      | none => rest
      | some (mid, _) => mid := by
  unfold pySplitIdx1
  rw [h1]

/-- Claim C4, counterexample: when `[TRANSCRIPT]` occurs twice, the code
keeps only the segment between the two occurrences (`split(...)[1]`), not
everything after the first occurrence as the claim states. -/
theorem claim_C4_counterexample :
    parse_response (Except.ok fi0) dupTxt =
      Except.ok { file_info := fi0, metadata := [("a", "b")], transcript := "foo",
                  raw_response := dupTxt } ∧
    dupTxt = "[METADATA]\na: b\n" ++ trMarker ++ "\nfoo\n[TRANSCRIPT]\nbar" ∧
    pyStrip "\nfoo\n[TRANSCRIPT]\nbar" = "foo\n[TRANSCRIPT]\nbar" ∧
    ("foo" : String) ≠ "foo\n[TRANSCRIPT]\nbar" := by
  refine ⟨rfl, by decide, by decide, by decide⟩

/-- Claim C4, amended: on the structured path the transcript is the trimmed
segment of the text strictly between the first occurrence of `[TRANSCRIPT]`
and the next occurrence after it; only when the marker occurs exactly once is
it the whole trimmed remainder after the first occurrence. -/
theorem claim_C4_amended (fi : FileInfo) (text : String)
    (hm : pyIn mdMarker text = true) (ht : pyIn trMarker text = true) :
    ∃ pre rest : String,
      text = pre ++ trMarker ++ rest ∧
      (∀ p q : String, text = p ++ trMarker ++ q → pre.length ≤ p.length) ∧
      (((∀ p q : String, rest ≠ p ++ trMarker ++ q) ∧
          (parse_try fi text).transcript = pyStrip rest) ∨
        (∃ mid post : String, rest = mid ++ trMarker ++ post ∧
          (∀ p q : String, rest = p ++ trMarker ++ q → mid.length ≤ p.length) ∧
          (parse_try fi text).transcript = pyStrip mid)) := by
  rw [parse_try_structured hm ht]
  have hsome : (splitFirstCh trMarker.data text.data).isSome = true := ht
  cases hsf : splitFirstCh trMarker.data text.data with
  | none => rw [hsf] at hsome; exact absurd hsome (by simp)
  | some pq =>
    obtain ⟨pre0, rest0⟩ := pq
    have hS : splitFirstS trMarker text = some (String.mk pre0, String.mk rest0) :=
      splitFirstS_eq_some trMarker text hsf
    refine ⟨String.mk pre0, String.mk rest0, ?_, ?_, ?_⟩
    · apply String.eq_of_data_eq
      rw [String.data_append_eq, String.data_append_eq]
      exact splitFirstCh_eq_append hsf
    · intro p q hpq
      have hd : text.data = p.data ++ trMarker.data ++ q.data := by
        have := congrArg String.data hpq
        rwa [String.data_append_eq, String.data_append_eq] at this
      exact splitFirstCh_min hsf p.data q.data hd
    · have htr : (structuredRecord fi text).transcript = pyStrip (pySplitIdx1 trMarker text) := rfl
      have hv := pySplitIdx1_eq_of_first trMarker text hS
      cases hsf2 : splitFirstCh trMarker.data (String.mk rest0).data with
      | none =>
        left
        constructor
        · intro p q hc
          have hd : (String.mk rest0).data = p.data ++ trMarker.data ++ q.data := by
            have := congrArg String.data hc
            rwa [String.data_append_eq, String.data_append_eq] at this
          exact splitFirstCh_none (by decide) hsf2 p.data q.data hd
        · rw [htr, hv, splitFirstS_none_of trMarker (String.mk rest0) hsf2]
      | some pq2 =>
        obtain ⟨mid0, post0⟩ := pq2
        right
        refine ⟨String.mk mid0, String.mk post0, ?_, ?_, ?_⟩
        · apply String.eq_of_data_eq
          rw [String.data_append_eq, String.data_append_eq]
          exact splitFirstCh_eq_append hsf2
        · intro p q hpq
          have hd : (String.mk rest0).data = p.data ++ trMarker.data ++ q.data := by
            have := congrArg String.data hpq
            rwa [String.data_append_eq, String.data_append_eq] at this
          exact splitFirstCh_min hsf2 p.data q.data hd
        · rw [htr, hv, splitFirstS_eq_some trMarker (String.mk rest0) hsf2]

/-- Claim C4, witness: the amended statement applied to the input with two
transcript markers. -/
theorem claim_C4_witness :
    pyIn mdMarker dupTxt = true ∧ pyIn trMarker dupTxt = true ∧
    (∃ pre rest : String,
      dupTxt = pre ++ trMarker ++ rest ∧
      (∀ p q : String, dupTxt = p ++ trMarker ++ q → pre.length ≤ p.length) ∧
      (((∀ p q : String, rest ≠ p ++ trMarker ++ q) ∧
          (parse_try fi0 dupTxt).transcript = pyStrip rest) ∨
        (∃ mid post : String, rest = mid ++ trMarker ++ post ∧
          (∀ p q : String, rest = p ++ trMarker ++ q → mid.length ≤ p.length) ∧
          (parse_try fi0 dupTxt).transcript = pyStrip mid))) :=
  ⟨by decide, by decide, claim_C4_amended fi0 dupTxt (by decide) (by decide)⟩

/-- Claim C5, counterexample: the loop filter looks only at the entry name,
so a subdirectory named `album.mp3` passes the extension test and is handed
to the transcriber — it is not skipped as the claim states. -/
theorem claim_C5_counterexample :
    (⟨"album.mp3", true⟩ : DirEntry).isDir = true ∧
    batch_processed_inputs "in" [⟨"album.mp3", true⟩] = ["in/album.mp3"] := by
  refine ⟨rfl, by decide⟩

/-- Claim C5, amended: the batch operation processes exactly the entries
whose extension, compared case-insensitively, is in the fixed set, but the
entry kind is never examined: subdirectories with a recognized audio
extension are selected too. -/
theorem claim_C5_amended :
    (∀ (collab : String → Option TranscriptRecord) (writeFails : String → Bool)
        (inDir outDir : String) (entries : List DirEntry) (fs : FS),
        batch_transcribe_directory collab writeFails inDir outDir entries fs =
          batch_transcribe_directory collab writeFails inDir outDir
            (entries.filter batchSelects) fs) ∧
    (∀ (entries : List DirEntry) (e : DirEntry),
        e ∈ entries.filter batchSelects ↔
          e ∈ entries ∧ pyLower (pySuffix e.name) ∈ audio_extensions) ∧
    (∀ (name : String) (d₁ d₂ : Bool),
        batchSelects { name := name, isDir := d₁ } = batchSelects { name := name, isDir := d₂ }) ∧
    batchSelects { name := "A.MP3", isDir := false } = true ∧
    batchSelects { name := "notes.txt", isDir := false } = false := by
  refine ⟨fun c w i o entries fs => batch_filter_selected c w i o entries fs, ?_,
    fun name d₁ d₂ => rfl, by decide, by decide⟩
  intro entries e
  rw [List.mem_filter]
  constructor
  · rintro ⟨h1, h2⟩
    exact ⟨h1, List.elem_iff.mp h2⟩
  · rintro ⟨h1, h2⟩
    exact ⟨h1, List.elem_iff.mpr h2⟩

/-- The three-file scenario: the collaborator fails exactly on the second
file. -/
def collabC8 : String → Option TranscriptRecord :=
  fun p => if p = "in/b.mp3" then none else some (noteRecord fi0 ("transcript of " ++ p))

/-- Three audio files for the batch-isolation scenario. -/
def entriesC8 : List DirEntry :=
  [{ name := "a.mp3", isDir := false }, { name := "b.mp3", isDir := false },
   { name := "c.mp3", isDir := false }]

/-- The empty output directory. -/
def emptyFS : FS := fun _ => none

/-- Claim C8: every change the batch run makes to the file system comes from
one selected entry whose collaborator call succeeded and whose export did
not fail, written at the artifact path of that entry — a failing entry leaves the
file system untouched and iteration continues; in the three-file scenario
where the collaborator fails only on the second file, artifacts exist for
the first and third files and not for the second. -/
theorem claim_C8 :
    (∀ (collab : String → Option TranscriptRecord) (writeFails : String → Bool)
        (inDir outDir : String) (entries : List DirEntry) (fs : FS) (path : String),
        batch_transcribe_directory collab writeFails inDir outDir entries fs path ≠ fs path →
        ∃ e, e ∈ entries ∧ batchSelects e = true ∧
          (collab (inDir ++ "/" ++ e.name)).isSome = true ∧
          path = outDir ++ "/" ++ pyStem e.name ++ "_transcript.md" ∧
          writeFails path = false) ∧
    (batch_transcribe_directory collabC8 (fun _ => false) "in" "out" entriesC8 emptyFS
        "out/a_transcript.md").isSome = true ∧
    batch_transcribe_directory collabC8 (fun _ => false) "in" "out" entriesC8 emptyFS
        "out/b_transcript.md" = none ∧
    (batch_transcribe_directory collabC8 (fun _ => false) "in" "out" entriesC8 emptyFS
        "out/c_transcript.md").isSome = true := by
  refine ⟨fun c w i o entries fs path h => batch_fs_change c w i o entries fs path h,
    by decide, by decide, by decide⟩

/-- Claim C8, witness: the provenance clause applied to the three-file
scenario at the first artifact path. -/
theorem claim_C8_witness :
    batch_transcribe_directory collabC8 (fun _ => false) "in" "out" entriesC8 emptyFS
        "out/a_transcript.md" ≠ emptyFS "out/a_transcript.md" ∧
    (∃ e, e ∈ entriesC8 ∧ batchSelects e = true ∧
      (collabC8 ("in" ++ "/" ++ e.name)).isSome = true ∧
      ("out/a_transcript.md" : String) = "out" ++ "/" ++ pyStem e.name ++ "_transcript.md" ∧
      (fun _ => (false : Bool)) "out/a_transcript.md" = false) :=
  ⟨by decide,
    claim_C8.1 collabC8 (fun _ => false) "in" "out" entriesC8 emptyFS
      "out/a_transcript.md" (by decide)⟩
